import Mathlib

/-!
Shallow embedding of `evolution.py` (bdefino/evolution): the entropy-to-bit
buffering layer (`get_bits`, `BitPool`/`RandomBitPool`), the helper functions
(`get_bit_count`, `get_whole`), the adaptive magnitude generator and mutation
engine (`RandomEvolver`), and the oracle (`DelegatingExitCodeTest`).

Machine bytes are modelled as `Nat` (Python integers are unbounded; entropy
bytes lie in `[0, 256)`).  The entropy source `os.urandom` is modelled as an
infinite byte stream `src : Nat → Nat` together with a cursor for the next
unread byte.  File I/O on the artifact is modelled as a `List Nat` of bytes;
the durable-flush calls (`os.fdatasync`) have no observable effect in this
sequential model.
-/

set_option autoImplicit false

namespace Evolution

/-- Embedding of `get_bit_count(n)`: `while n: bit_count += 1; n >>= 1`.
Returns the minimum number of bits required to store `n`. -/
def get_bit_count (n : Nat) : Nat :=
  if h : n = 0 then 0 else get_bit_count (n >>> 1) + 1
termination_by n
decreasing_by
  simp only [Nat.shiftRight_one]
  exact Nat.div_lt_self (Nat.pos_of_ne_zero h) (by omega)

/-- Embedding of the generator `get_bits(byte, n = 8)`:
`i = 1 << n; while n: yield (byte & i) >> n; i >>= 1; n -= 1`.
At the iteration where the counter has value `m` (from `n` down to `1`) the
mask is `1 << m`, so the yielded value is bit `m` of `byte`.  Note the first
yielded value is bit `n` (for `n = 8` and a byte, constantly `0`) and bit `0`
is never yielded. -/
def get_bits (byte : Nat) : Nat → List Nat
  | 0 => []
  | m + 1 => ((byte &&& (1 <<< (m + 1))) >>> (m + 1)) :: get_bits byte m

/-- Embedding of `get_whole(*bits)`: `n = 0; for bit in bits: n <<= 1; n |= bit`. -/
def get_whole (bits : List Nat) : Nat :=
  bits.foldl (fun n bit => (n <<< 1) ||| bit) 0

/-- State of a `RandomBitPool`: the queue of buffered unconsumed bits
(front of the list leaves first) and the cursor of the next entropy byte
to be read from the source. -/
structure PoolState where
  buf : List Nat
  idx : Nat
  deriving Repr, DecidableEq

/-- Embedding of `RandomBitPool.drain(n)` over an entropy byte stream `src`:
repeatedly collect up to `n` bits from the queue (`BitPool.drain`); when the
queue is empty, refill it with `get_bits(ord(read_entropy(1)))` (8 bits of the
next source byte) and retry; otherwise emit the collected bits and decrease
`n` by their count.  Returns the emitted bits and the successor pool state. -/
def drain (src : Nat → Nat) : Nat → PoolState → List Nat × PoolState
  | 0, s => ([], s)
  | n + 1, s =>
    if h : s.buf = [] then
      drain src (n + 1) ⟨get_bits (src s.idx) 8, s.idx + 1⟩
    else
      let bitt := s.buf.take (n + 1)
      let p := drain src (n + 1 - bitt.length) ⟨s.buf.drop (n + 1), s.idx⟩
      (bitt ++ p.1, p.2)
termination_by n s => (n, if s.buf = [] then 1 else 0)
decreasing_by
  · apply Prod.Lex.right
    simp [get_bits, h]
  · apply Prod.Lex.left
    have hb : 0 < s.buf.length := List.length_pos.mpr h
    simp only [List.length_take]
    omega

/-- Configuration of a `RandomEvolver` (constructor arguments that stay fixed
for the run).  `slog_ceil` abstracts the composition
`math.ceil(self._severe_log(n))` where `_severe_log(n)` is the float
`math.log(n, math.e ** math.e)` with `0` returned on `ValueError` (`n = 0`):
on natural-number inputs this real value is `⌈ln n / e⌉`, which is `0` for
`n ≤ 1` and positive otherwise, so a `Nat`-valued function is faithful; no
claim below depends on its pointwise values, so it is kept as a parameter
rather than re-deriving float semantics. -/
structure EvolverConfig where
  generational_flips : Nat
  growth : Bool
  randomize_random_whole_bit_count : Bool
  slog_ceil : Nat → Nat

/-- Mutable state of a `RandomEvolver`: its private `RandomBitPool` and the
`random_whole_bit_count` attribute. -/
structure EvolverState where
  pool : PoolState
  random_whole_bit_count : Nat
  deriving Repr, DecidableEq

/-- Drain `n` bits from the evolver's pool (`self._pool.drain(n)`), threading
the evolver state. -/
def drainE (src : Nat → Nat) (n : Nat) (s : EvolverState) : List Nat × EvolverState :=
  let p := drain src n s.pool
  (p.1, { s with pool := p.2 })

/-- Embedding of `bool(*tuple(self._pool.drain(1)))`: drain one bit and
truth-test it. -/
def drain_bool (src : Nat → Nat) (s : EvolverState) : Bool × EvolverState :=
  let p := drainE src 1 s
  (decide (p.1.headD 0 ≠ 0), p.2)

/-- Embedding of `RandomEvolver._raw_random_whole(bit_count)`:
`get_whole(*tuple(self._pool.drain(bit_count)))`. -/
def raw_random_whole (src : Nat → Nat) (bit_count : Nat) (s : EvolverState) :
    Nat × EvolverState :=
  let p := drainE src bit_count s
  (get_whole p.1, p.2)

/-- Embedding of `RandomEvolver._random_whole()`: draw
`n = _raw_random_whole(random_whole_bit_count)`; when
`randomize_random_whole_bit_count` is set, draw a second same-width value,
compress it with the severe logarithm when the current width is at least 2,
negate it when one further drained bit is truthy, add it to
`random_whole_bit_count`, and reset the width to 1 whenever the sum is
non-positive.  Returns `n` and the successor state. -/
def random_whole (cfg : EvolverConfig) (src : Nat → Nat) (s : EvolverState) :
    Nat × EvolverState :=
  let p1 := raw_random_whole src s.random_whole_bit_count s
  if cfg.randomize_random_whole_bit_count then
    let p2 := raw_random_whole src p1.2.random_whole_bit_count p1.2
    let offset0 := if 2 ≤ p2.2.random_whole_bit_count then cfg.slog_ceil p2.1 else p2.1
    let pb := drain_bool src p2.2
    let offset : Int := if pb.1 then -(offset0 : Int) else (offset0 : Int)
    let w : Int := (pb.2.random_whole_bit_count : Int) + offset
    (p1.1, { pb.2 with random_whole_bit_count := if w ≤ 0 then 1 else w.toNat })
  else
    (p1.1, p1.2)

/-- Embedding of `RandomEvolver._normal_random_whole()`: draw
`n = _random_whole()` and, when `self.random_whole_bit_count` is at least 2
AFTER that call (which may have changed it), replace `n` by
`math.ceil(self._severe_log(n))`. -/
def normal_random_whole (cfg : EvolverConfig) (src : Nat → Nat) (s : EvolverState) :
    Nat × EvolverState :=
  let p := random_whole cfg src s
  if 2 ≤ p.2.random_whole_bit_count then (cfg.slog_ceil p.1, p.2) else p

/-- Embedding of the grow loop of `RandomEvolver.__call__`:
`while fp.tell() < target: fp.write(get_byte(get_whole(*tuple(self._pool.drain(7)))))`
with the file position at end-of-file, so each iteration appends one byte
assembled from 7 drained bits. -/
def grow_bytes (src : Nat → Nat) (target : Nat) (art : List Nat) (s : EvolverState) :
    List Nat × EvolverState :=
  if art.length < target then
    let p := drainE src 7 s
    grow_bytes src target (art ++ [get_whole p.1]) p.2
  else
    (art, s)
termination_by target - art.length
decreasing_by simp only [List.length_append, List.length_cons, List.length_nil]; omega

/-- Embedding of the resize step of `RandomEvolver.__call__`: when `growth` is
configured and one drained bit is truthy, set
`target = size + _normal_random_whole()` clamped below at `0`, append bytes of
7 drained bits each while the file is shorter than `target`, and truncate the
file to `target` bytes. -/
def resize_phase (cfg : EvolverConfig) (src : Nat → Nat) (art : List Nat)
    (s : EvolverState) : List Nat × EvolverState :=
  if cfg.growth then
    let pb := drain_bool src s
    if pb.1 then
      let pd := normal_random_whole cfg src pb.2
      let target0 : Int := (art.length : Int) + (pd.1 : Int)
      let target : Nat := (if 0 ≤ target0 then target0 else 0).toNat
      let pg := grow_bytes src target art pd.2
      (pg.1.take target, pg.2)
    else (art, pb.2)
  else (art, s)

/-- Embedding of one bit flip of `RandomEvolver.__call__` at absolute bit
offset `fulli`: `bytei = fulli // 8`, `biti = fulli % 8`, read the byte at
`bytei`, xor it with `1 << biti`, and write it back. -/
def apply_flip (art : List Nat) (fulli : Nat) : List Nat :=
  art.set (fulli / 8) ((art.getD (fulli / 8) 0) ^^^ (1 <<< (fulli % 8)))

/-- Embedding of the flip loop of `RandomEvolver.__call__`:
`for i in range(self.generational_flips)`, draw
`fulli = _raw_random_whole(bit_count) % (size * 8)` and toggle that bit. -/
def flip_loop (src : Nat → Nat) (size bit_count : Nat) :
    Nat → List Nat → EvolverState → List Nat × EvolverState
  | 0, art, s => (art, s)
  | k + 1, art, s =>
    let p := raw_random_whole src bit_count s
    flip_loop src size bit_count k (apply_flip art (p.1 % (size * 8))) p.2

/-- Embedding of `RandomEvolver.__call__` (one generation): optional resize,
then, unless the resulting size is `0`, compute
`bit_count = get_bit_count(size * 8)` and perform `generational_flips` bit
flips. -/
def generation (cfg : EvolverConfig) (src : Nat → Nat) (art : List Nat)
    (s : EvolverState) : List Nat × EvolverState :=
  let pr := resize_phase cfg src art s
  if pr.1.length = 0 then pr
  else
    flip_loop src pr.1.length (get_bit_count (pr.1.length * 8))
      cfg.generational_flips pr.1 pr.2

/-- Outcome of the child process spawned by `DelegatingExitCodeTest.__call__`:
the `subprocess.Popen` constructor fails, or the child exits with an integer
code within the timeout, or the timeout elapses first. -/
inductive ChildOutcome where
  | launch_failure
  | exited (code : Int)
  | timed_out
  deriving Repr, DecidableEq

/-- Embedding of `DelegatingExitCodeTest.__call__` with expected exit status
`code`.  `Except.ok` is a returned verdict; `Except.error ()` is an exception
escaping the call.  The bare `except` clause guards only the `Popen`
constructor and returns `False`.  Per the Python standard library,
`child.wait(self.timeout)` returns the `int` exit status when the child exits
in time — compared against `self.code` — and raises
`subprocess.TimeoutExpired` when the timeout elapses first, an exception no
handler in `__call__` catches. -/
def delegating_exit_code_test (code : Int) (outcome : ChildOutcome) :
    Except Unit Bool :=
  match outcome with
  | .launch_failure => Except.ok false
  | .exited c => Except.ok (decide (c = code))
  | .timed_out => Except.error ()

/-! Helper lemmas about the bit-level functions. -/

theorem get_bits_length (byte n : Nat) : (get_bits byte n).length = n := by
  induction n with
  | zero => rfl
  | succ m ih => simp [get_bits, ih]

theorem get_bits_le_one (byte n : Nat) : ∀ b ∈ get_bits byte n, b ≤ 1 := by
  induction n with
  | zero => simp [get_bits]
  | succ m ih =>
    intro b hb
    rcases List.mem_cons.mp hb with rfl | hb
    · rw [Nat.shiftRight_eq_div_pow]
      calc (byte &&& 1 <<< (m + 1)) / 2 ^ (m + 1)
          ≤ (1 <<< (m + 1)) / 2 ^ (m + 1) :=
            Nat.div_le_div_right Nat.and_le_right
        _ = 1 := by rw [Nat.one_shiftLeft]; exact Nat.div_self (Nat.pos_pow_of_pos _ (by omega))
    · exact ih b hb

theorem get_whole_foldl_lt (l : List Nat) :
    ∀ a k : Nat, (∀ b ∈ l, b ≤ 1) → a < 2 ^ k →
      l.foldl (fun n bit => (n <<< 1) ||| bit) a < 2 ^ (k + l.length) := by
  induction l with
  | nil => intro a k _ ha; simpa using ha
  | cons b t ih =>
    intro a k hl ha
    have hb : b ≤ 1 := hl b (List.mem_cons_self b t)
    have hstep : (a <<< 1) ||| b < 2 ^ (k + 1) := by
      apply Nat.or_lt_two_pow
      · rw [Nat.shiftLeft_eq, pow_succ]
        exact Nat.mul_lt_mul_of_lt_of_le ha (by omega) (by omega)
      · calc b ≤ 1 := hb
          _ < 2 ^ (k + 1) := Nat.one_lt_two_pow (by omega)
    have := ih ((a <<< 1) ||| b) (k + 1) (fun x hx => hl x (List.mem_cons_of_mem b hx)) hstep
    simpa [List.length_cons, Nat.add_assoc, Nat.add_comm 1 t.length] using this

theorem get_whole_lt (l : List Nat) (hl : ∀ b ∈ l, b ≤ 1) :
    get_whole l < 2 ^ l.length := by
  simpa using get_whole_foldl_lt l 0 0 hl (by omega)

theorem drain_length (src : Nat → Nat) (n : Nat) (s : PoolState) :
    (drain src n s).1.length = n := by
  induction n, s using drain.induct src with
  | case1 s => simp [drain]
  | case2 n s h ih => rw [drain]; simpa [h] using ih
  | case3 n s h bitt ih =>
    have hpos : 0 < s.buf.length := List.length_pos.mpr h
    rw [drain]
    simp only [bitt, List.length_take] at ih
    simp only [dif_neg h, List.length_append, List.length_take]
    omega

theorem drain_le_one (src : Nat → Nat) (n : Nat) (s : PoolState) :
    (∀ b ∈ s.buf, b ≤ 1) →
      (∀ b ∈ (drain src n s).1, b ≤ 1) ∧ ∀ b ∈ (drain src n s).2.buf, b ≤ 1 := by
  induction n, s using drain.induct src with
  | case1 s => intro hs; simpa [drain] using hs
  | case2 n s h ih =>
    intro _
    rw [drain]
    simp only [dif_pos h]
    exact ih fun b hb => get_bits_le_one _ _ b hb
  | case3 n s h bitt ih =>
    intro hs
    rw [drain]
    simp only [dif_neg h]
    obtain ⟨ihl, ihr⟩ := ih fun b hb => hs b (List.drop_subset _ _ hb)
    refine ⟨fun b hb => ?_, ihr⟩
    rcases List.mem_append.mp hb with hb | hb
    · exact hs b (List.take_subset _ _ hb)
    · exact ihl b hb

theorem drainE_rwbc (src : Nat → Nat) (n : Nat) (s : EvolverState) :
    (drainE src n s).2.random_whole_bit_count = s.random_whole_bit_count := rfl

theorem random_whole_rwbc_pos (cfg : EvolverConfig) (src : Nat → Nat)
    (s : EvolverState) (hs : 0 < s.random_whole_bit_count) :
    0 < (random_whole cfg src s).2.random_whole_bit_count := by
  have key : ∀ w : Int, 0 < if w ≤ 0 then 1 else w.toNat := by
    intro w; split <;> omega
  unfold random_whole
  by_cases hr : cfg.randomize_random_whole_bit_count
  · simp only [hr, if_true]
    exact key _
  · simpa [hr, raw_random_whole, drainE_rwbc] using hs

/-- Iterated state evolution of `_random_whole` draws: the state after `k`
consecutive calls of `RandomEvolver._random_whole`. -/
def draw_seq (cfg : EvolverConfig) (src : Nat → Nat) : Nat → EvolverState → EvolverState
  | 0, s => s
  | k + 1, s => draw_seq cfg src k (random_whole cfg src s).2

theorem set_getD_self (l : List Nat) (i : Nat) (h : i < l.length) :
    l.set i (l.getD i 0) = l := by
  have hg : l.getD i 0 = l[i] := by
    rw [List.getD_eq_getElem?_getD, List.getElem?_eq_getElem h]; rfl
  rw [hg]
  apply List.ext_getElem?
  intro n
  by_cases hn : i = n
  · subst hn; simp [List.getElem?_set_self', List.getElem?_eq_getElem h]
  · simp [List.getElem?_set_ne hn]

theorem getD_set_self (l : List Nat) (i a : Nat) (h : i < l.length) :
    (l.set i a).getD i 0 = a := by
  rw [List.getD_eq_getElem?_getD]
  simp [List.getElem?_set_self', List.getElem?_eq_getElem h]

theorem get_bit_count_eq_log (n : Nat) : 0 < n → get_bit_count n = Nat.log 2 n + 1 := by
  induction n using Nat.strong_induction_on with
  | _ n ih =>
    intro hn
    rw [get_bit_count]
    simp only [dif_neg (Nat.pos_iff_ne_zero.mp hn)]
    rcases Nat.lt_or_ge n 2 with h2 | h2
    · have hn1 : n = 1 := by omega
      subst hn1
      have h0 : (1 : Nat) >>> 1 = 0 := rfl
      rw [h0, get_bit_count]
      simp [Nat.log_one_right]
    · have hlt : n >>> 1 < n := by rw [Nat.shiftRight_one]; omega
      have hpos : 0 < n >>> 1 := by rw [Nat.shiftRight_one]; omega
      rw [ih (n >>> 1) hlt hpos, Nat.shiftRight_one, Nat.log_div_base]
      have hlog : 0 < Nat.log 2 n := Nat.log_pos (by omega) h2
      omega

theorem grow_bytes_length (src : Nat → Nat) (target : Nat) (art : List Nat)
    (s : EvolverState) :
    (grow_bytes src target art s).1.length = max art.length target := by
  induction art, s using grow_bytes.induct src target with
  | case1 art s h p ih =>
    rw [grow_bytes]
    simp only [if_pos h]
    simp only [p] at ih
    rw [ih]
    simp only [List.length_append, List.length_cons, List.length_nil]
    omega
  | case2 art s h =>
    rw [grow_bytes]
    simp only [if_neg h]
    omega

theorem grow_bytes_spec (src : Nat → Nat) (target : Nat) (art : List Nat)
    (s : EvolverState) :
    (∀ b ∈ s.pool.buf, b ≤ 1) →
      (∃ ext, (grow_bytes src target art s).1 = art ++ ext ∧ ∀ b ∈ ext, b < 128) ∧
        ∀ b ∈ (grow_bytes src target art s).2.pool.buf, b ≤ 1 := by
  induction art, s using grow_bytes.induct src target with
  | case1 art s h p ih =>
    intro hs
    have hd := drain_le_one src 7 s.pool hs
    have hbyte : get_whole (drainE src 7 s).1 < 128 := by
      have hlen : ((drainE src 7 s).1).length = 7 := drain_length src 7 s.pool
      have := get_whole_lt ((drainE src 7 s).1) hd.1
      rw [hlen] at this
      simpa using this
    simp only [p] at ih
    obtain ⟨⟨ext, hext, hbnd⟩, hwf⟩ := ih hd.2
    rw [grow_bytes]
    simp only [if_pos h]
    refine ⟨⟨get_whole (drainE src 7 s).1 :: ext, ?_, ?_⟩, hwf⟩
    · rw [hext]
      simp
    · intro b hb
      rcases List.mem_cons.mp hb with rfl | hb
      · exact hbyte
      · exact hbnd b hb
  | case2 art s h =>
    intro hs
    rw [grow_bytes]
    simp only [if_neg h]
    exact ⟨⟨[], by simp, by simp⟩, hs⟩

theorem resize_phase_grow_eq (cfg : EvolverConfig) (src : Nat → Nat) (art : List Nat)
    (s : EvolverState) (hg : cfg.growth = true) (hb : (drain_bool src s).1 = true) :
    resize_phase cfg src art s =
      ((grow_bytes src (art.length + (normal_random_whole cfg src (drain_bool src s).2).1)
          art (normal_random_whole cfg src (drain_bool src s).2).2).1.take
            (art.length + (normal_random_whole cfg src (drain_bool src s).2).1),
        (grow_bytes src (art.length + (normal_random_whole cfg src (drain_bool src s).2).1)
          art (normal_random_whole cfg src (drain_bool src s).2).2).2) := by
  have ht : (if 0 ≤ (art.length : Int) +
        ((normal_random_whole cfg src (drain_bool src s).2).1 : Int)
      then (art.length : Int) + ((normal_random_whole cfg src (drain_bool src s).2).1 : Int)
      else 0).toNat = art.length + (normal_random_whole cfg src (drain_bool src s).2).1 := by
    rw [if_pos (by positivity)]
    omega
  unfold resize_phase
  simp only [hg, if_true, hb, ht]

theorem resize_phase_length_ge (cfg : EvolverConfig) (src : Nat → Nat) (art : List Nat)
    (s : EvolverState) : art.length ≤ (resize_phase cfg src art s).1.length := by
  by_cases hg : cfg.growth
  · by_cases hb : (drain_bool src s).1
    · rw [resize_phase_grow_eq cfg src art s hg hb]
      simp only [List.length_take, grow_bytes_length]
      omega
    · unfold resize_phase
      simp [hg, hb]
  · unfold resize_phase
    simp [hg]

theorem drain_bool_wf (src : Nat → Nat) (s : EvolverState)
    (hs : ∀ b ∈ s.pool.buf, b ≤ 1) :
    ∀ b ∈ (drain_bool src s).2.pool.buf, b ≤ 1 :=
  (drain_le_one src 1 s.pool hs).2

theorem random_whole_wf (cfg : EvolverConfig) (src : Nat → Nat) (s : EvolverState)
    (hs : ∀ b ∈ s.pool.buf, b ≤ 1) :
    ∀ b ∈ (random_whole cfg src s).2.pool.buf, b ≤ 1 := by
  unfold random_whole raw_random_whole drain_bool drainE
  by_cases hr : cfg.randomize_random_whole_bit_count
  · simp only [hr, if_true]
    exact (drain_le_one src 1 _
      ((drain_le_one src _ _ ((drain_le_one src _ _ hs).2)).2)).2
  · simp only [hr, if_false]
    exact (drain_le_one src _ _ hs).2

theorem normal_random_whole_wf (cfg : EvolverConfig) (src : Nat → Nat)
    (s : EvolverState) (hs : ∀ b ∈ s.pool.buf, b ≤ 1) :
    ∀ b ∈ (normal_random_whole cfg src s).2.pool.buf, b ≤ 1 := by
  unfold normal_random_whole
  by_cases h2 : 2 ≤ (random_whole cfg src s).2.random_whole_bit_count
  · simp only [h2, if_true]
    exact random_whole_wf cfg src s hs
  · simp only [h2, if_false]
    exact random_whole_wf cfg src s hs

theorem resize_phase_grown_lt (cfg : EvolverConfig) (src : Nat → Nat) (art : List Nat)
    (s : EvolverState) (hs : ∀ b ∈ s.pool.buf, b ≤ 1) :
    ∀ b ∈ (resize_phase cfg src art s).1.drop art.length, b < 128 := by
  by_cases hg : cfg.growth
  · by_cases hb : (drain_bool src s).1
    · rw [resize_phase_grow_eq cfg src art s hg hb]
      have hwf : ∀ b ∈ (normal_random_whole cfg src (drain_bool src s).2).2.pool.buf,
          b ≤ 1 :=
        normal_random_whole_wf cfg src _ (drain_bool_wf src s hs)
      obtain ⟨⟨ext, hext, hbnd⟩, -⟩ :=
        grow_bytes_spec src
          (art.length + (normal_random_whole cfg src (drain_bool src s).2).1) art _ hwf
      intro b hbmem
      rw [hext, List.take_append_eq_append_take, List.take_of_length_le (by omega),
        List.drop_left] at hbmem
      exact hbnd b (List.take_subset _ _ hbmem)
    · unfold resize_phase
      simp [hg, hb]
  · unfold resize_phase
    simp [hg]

theorem apply_flip_length (art : List Nat) (fulli : Nat) :
    (apply_flip art fulli).length = art.length :=
  List.length_set art _ _

theorem flip_loop_length (src : Nat → Nat) (size bit_count k : Nat) (art : List Nat)
    (s : EvolverState) :
    (flip_loop src size bit_count k art s).1.length = art.length := by
  induction k generalizing art s with
  | zero => rfl
  | succ k ih =>
    rw [flip_loop]
    rw [ih]
    exact apply_flip_length art _

/-! Claim theorems. -/

/-- C1 (code bug): draining 8 bits from an empty pool over a source whose next
byte is `0xFF = 255` yields `[0, 1, 1, 1, 1, 1, 1, 1]` — bit 8 of the byte
(constantly zero) followed by bits 7 down to 1 — and not the MSB-first
expansion `[1, 1, 1, 1, 1, 1, 1, 1]` of `255`: `get_bits` starts its mask at
`1 << 8` and stops before bit 0, so the low bit of every consumed entropy byte
is dropped, contradicting its docstring `big bit first` and the claimed
`b's bit 7 down through b's bit 0`. -/
theorem C1_drain_not_msb_first :
    (drain (fun _ => 255) 8 ⟨[], 0⟩).1 = [0, 1, 1, 1, 1, 1, 1, 1] ∧
      [0, 1, 1, 1, 1, 1, 1, 1] ≠ [1, 1, 1, 1, 1, 1, 1, 1] := by
  constructor
  · simp [drain, get_bits]
    decide
  · decide

/-- C2 (code bug): one generation never shrinks the artifact, whatever the
configuration, entropy stream, artifact and state: `_normal_random_whole`
returns a natural number (no sign bit is ever applied to the resize delta —
the only sign bit drawn in `_random_whole` is applied to the bit-width offset),
so `target = size + delta ≥ size` and the `target < S` truncation branch of
the claim is unreachable, contradicting the docstring `MAY ALSO grow/shrink
the program` and the comment `accounts for positive and negative growth`. -/
theorem C2_generation_never_shrinks (cfg : EvolverConfig) (src : Nat → Nat)
    (art : List Nat) (s : EvolverState) :
    art.length ≤ (generation cfg src art s).1.length := by
  unfold generation
  by_cases h : (resize_phase cfg src art s).1.length = 0
  · simpa [h] using resize_phase_length_ge cfg src art s
  · simp only [h, if_false]
    rw [flip_loop_length]
    exact resize_phase_length_ge cfg src art s

/-- C3 (code bug): when the child process overruns the configured timeout,
`DelegatingExitCodeTest.__call__` does not return the failing verdict `False`:
`child.wait(self.timeout)` raises `subprocess.TimeoutExpired`, which no
handler in the method catches (the bare `except` guards only `Popen`), so the
evaluation escapes as an uncaught exception instead of any verdict. -/
theorem C3_timeout_escapes_as_exception (code : Int) :
    delegating_exit_code_test code ChildOutcome.timed_out = Except.error () ∧
      ∀ b : Bool, delegating_exit_code_test code ChildOutcome.timed_out ≠ Except.ok b :=
  ⟨rfl, fun _ h => nomatch h⟩

/-- C4 counterexample: for artifact size `S = 1` the code draws
`get_bit_count(S * 8) = 4` raw bits per flip, not `ceil(log2(S * 8)) = 3` as
the claim states: `get_bit_count` returns `floor(log2 n) + 1`, which exceeds
`ceil(log2 n)` exactly at powers of two. -/
theorem C4_counterexample_bit_count_power_of_two :
    get_bit_count (1 * 8) = 4 ∧ Nat.clog 2 (1 * 8) = 3 ∧
      get_bit_count (1 * 8) ≠ Nat.clog 2 (1 * 8) := by
  have h1 : get_bit_count 8 = 4 := by simp [get_bit_count]
  have h2 : Nat.clog 2 8 = 3 := by
    rw [show (8 : Nat) = 2 ^ 3 by norm_num, Nat.clog_pow]
    norm_num
  have e1 : get_bit_count (1 * 8) = 4 := by simpa using h1
  have e2 : Nat.clog 2 (1 * 8) = 3 := by simpa using h2
  exact ⟨e1, e2, by omega⟩

/-- C4 (amended): in every flip of the flip phase with artifact size `S > 0`,
the bit offset is computed by drawing exactly
`get_bit_count(S * 8) = floor(log2(S * 8)) + 1` raw entropy bits (one more
than `ceil(log2(S * 8))` when `S * 8` is a power of two), interpreting them as
an unsigned integer (`get_whole`) and reducing modulo `S * 8`; the flipped
location is `byte_index = offset div 8` (which is in range) and
`bit_in_byte = offset mod 8`, and the byte is changed by exclusive-or with the
single-bit mask `1 <<< bit_in_byte`. -/
theorem C4_flip_offset_characterization (src : Nat → Nat) (art : List Nat)
    (s : EvolverState) (k : Nat) (h : 0 < art.length) :
    let bc := get_bit_count (art.length * 8)
    let p := drainE src bc s
    let fulli := get_whole p.1 % (art.length * 8)
    bc = Nat.log 2 (art.length * 8) + 1 ∧
      p.1.length = bc ∧
      fulli / 8 < art.length ∧
      flip_loop src art.length bc (k + 1) art s =
        flip_loop src art.length bc k
          (art.set (fulli / 8) ((art.getD (fulli / 8) 0) ^^^ (1 <<< (fulli % 8))))
          p.2 := by
  intro bc p fulli
  have hpos : 0 < art.length * 8 := by omega
  refine ⟨get_bit_count_eq_log _ hpos, drain_length src bc s.pool, ?_, rfl⟩
  have h1 : fulli < art.length * 8 := Nat.mod_lt _ hpos
  omega

/-- Witness for C4: the amended characterization instantiated at a 1-byte
artifact, the constant `0xFF` entropy source and an empty pool. -/
theorem C4_flip_offset_characterization_witness :
    let art : List Nat := [0]
    let s : EvolverState := ⟨⟨[], 0⟩, 1⟩
    let src : Nat → Nat := fun _ => 255
    let bc := get_bit_count (art.length * 8)
    let p := drainE src bc s
    let fulli := get_whole p.1 % (art.length * 8)
    bc = Nat.log 2 (art.length * 8) + 1 ∧
      p.1.length = bc ∧
      fulli / 8 < art.length ∧
      flip_loop src art.length bc (0 + 1) art s =
        flip_loop src art.length bc 0
          (art.set (fulli / 8) ((art.getD (fulli / 8) 0) ^^^ (1 <<< (fulli % 8))))
          p.2 :=
  C4_flip_offset_characterization (fun _ => 255) [0] ⟨⟨[], 0⟩, 1⟩ 0 (by decide)

/-- C5 (confirmed): starting from any positive `random_whole_bit_count`,
across arbitrarily long sequences of `_random_whole` draws — each of which
applies a signed random-walk step to the width and clamps it to 1 whenever it
would go non-positive — the width never becomes zero. -/
theorem C5_bit_width_stays_positive (cfg : EvolverConfig) (src : Nat → Nat)
    (k : Nat) (s : EvolverState) (hs : 0 < s.random_whole_bit_count) :
    0 < (draw_seq cfg src k s).random_whole_bit_count := by
  induction k generalizing s with
  | zero => exact hs
  | succ k ih =>
    rw [draw_seq]
    exact ih _ (random_whole_rwbc_pos cfg src s hs)

/-- Witness for C5: five draws from width 1 with a constant entropy source
leave the width positive. -/
theorem C5_bit_width_stays_positive_witness :
    0 < (draw_seq ⟨1, true, true, fun _ => 0⟩ (fun _ => 255) 5
        ⟨⟨[], 0⟩, 1⟩).random_whole_bit_count :=
  C5_bit_width_stays_positive ⟨1, true, true, fun _ => 0⟩ (fun _ => 255) 5
    ⟨⟨[], 0⟩, 1⟩ (by decide)

/-- C6 (confirmed): with growth disabled and a flip budget of 1, one
generation applied to the 1-byte artifact `0x00` produces exactly one of the
eight single-bit bytes, for every entropy stream and every evolver state. -/
theorem C6_single_flip_on_zero_byte (cfg : EvolverConfig) (src : Nat → Nat)
    (s : EvolverState) (hg : cfg.growth = false) (hf : cfg.generational_flips = 1) :
    (generation cfg src [0] s).1 ∈
      [[1], [2], [4], [8], [16], [32], [64], [128]] := by
  have key : ∀ f : Nat, f < 8 →
      apply_flip [0] f ∈ ([[1], [2], [4], [8], [16], [32], [64], [128]] : List (List Nat)) := by
    intro f hflt
    unfold apply_flip
    rw [Nat.div_eq_of_lt hflt, Nat.mod_eq_of_lt hflt]
    interval_cases f <;> decide
  have hr : resize_phase cfg src [0] s = ([0], s) := by
    unfold resize_phase
    simp [hg]
  have hstep : flip_loop src 1 (get_bit_count (1 * 8)) 1 [0] s =
      ((apply_flip [0] ((raw_random_whole src (get_bit_count (1 * 8)) s).1 % (1 * 8))),
        (raw_random_whole src (get_bit_count (1 * 8)) s).2) := rfl
  unfold generation
  rw [hr]
  simp only [hf, List.length_cons, List.length_nil]
  rw [if_neg (by omega), hstep]
  exact key _ (Nat.mod_lt _ (by omega))

/-- Witness for C6: the eight-valued outcome at growth-disabled configuration,
constant `0xFF` source and empty pool. -/
theorem C6_single_flip_on_zero_byte_witness :
    (generation ⟨1, false, true, fun _ => 0⟩ (fun _ => 255) [0]
        ⟨⟨[], 0⟩, 1⟩).1 ∈ [[1], [2], [4], [8], [16], [32], [64], [128]] :=
  C6_single_flip_on_zero_byte ⟨1, false, true, fun _ => 0⟩ (fun _ => 255)
    ⟨⟨[], 0⟩, 1⟩ rfl rfl

/-- C7 (confirmed): flipping the same absolute bit offset twice consecutively,
with no other mutation in between, restores the artifact byte-for-byte: the
single-flip operation of the flip phase is an involution. -/
theorem C7_flip_involution (art : List Nat) (fulli : Nat) :
    apply_flip (apply_flip art fulli) fulli = art := by
  unfold apply_flip
  by_cases h : fulli / 8 < art.length
  · rw [getD_set_self _ _ _ h, List.set_set, Nat.xor_cancel_right,
      set_getD_self _ _ h]
  · have hle : art.length ≤ fulli / 8 := Nat.le_of_not_lt h
    simp only [List.set_eq_of_length_le hle]

/-- C8 (confirmed): whenever the artifact size after the optional resize step
is 0 bytes, the generation performs no flips: it returns the post-resize
artifact and state unchanged, so no bit-offset computation modulo `S * 8 = 0`
and no byte read from the empty artifact occurs. -/
theorem C8_zero_size_skips_flips (cfg : EvolverConfig) (src : Nat → Nat)
    (art : List Nat) (s : EvolverState)
    (h : (resize_phase cfg src art s).1.length = 0) :
    generation cfg src art s = resize_phase cfg src art s := by
  unfold generation
  simp [h]

/-- Witness for C8: with growth disabled and an empty artifact the resize
result is empty and the generation is exactly the resize result. -/
theorem C8_zero_size_skips_flips_witness :
    generation ⟨1, false, true, fun _ => 0⟩ (fun _ => 255) [] ⟨⟨[], 0⟩, 1⟩ =
      resize_phase ⟨1, false, true, fun _ => 0⟩ (fun _ => 255) [] ⟨⟨[], 0⟩, 1⟩ :=
  C8_zero_size_skips_flips ⟨1, false, true, fun _ => 0⟩ (fun _ => 255) []
    ⟨⟨[], 0⟩, 1⟩ rfl

/-- C9 (confirmed): every byte appended to the artifact during a grow step is
assembled by `get_whole` from exactly 7 bits drained from the bit pool, so its
value lies in `[0, 127]` and its most-significant bit is clear — for every
configuration, entropy stream, artifact and evolver state whose buffered pool
bits are single bits. -/
theorem C9_grown_bytes_msb_clear (cfg : EvolverConfig) (src : Nat → Nat)
    (art : List Nat) (s : EvolverState)
    (hs : s.pool.buf.all (fun b => b ≤ 1) = true) :
    ((resize_phase cfg src art s).1.drop art.length).all (fun b => b < 128) = true := by
  have hwf : ∀ b ∈ s.pool.buf, b ≤ 1 := by
    intro x hx
    simpa using List.all_eq_true.mp hs x hx
  rw [List.all_eq_true]
  intro b hb
  simpa using resize_phase_grown_lt cfg src art s hwf b hb

/-- Witness for C9: a growing generation (growth bit pre-buffered as 1, width
3, identity severe-log) appends only bytes below 128. -/
theorem C9_grown_bytes_msb_clear_witness :
    ((resize_phase ⟨1, true, false, fun n => n⟩ (fun _ => 255) []
          ⟨⟨[1], 0⟩, 3⟩).1.drop ([] : List Nat).length).all (fun b => b < 128) = true :=
  C9_grown_bytes_msb_clear ⟨1, true, false, fun n => n⟩ (fun _ => 255) []
    ⟨⟨[1], 0⟩, 3⟩ (by decide)

/-- C10 (confirmed): a generation is deterministic in the entropy stream: two
runs of `RandomEvolver.__call__` from equal artifact contents, equal entropy
byte streams and equal evolver states (pool and `random_whole_bit_count`)
produce equal final artifacts and equal final states. -/
theorem C10_generation_deterministic (cfg₁ cfg₂ : EvolverConfig)
    (src₁ src₂ : Nat → Nat) (art₁ art₂ : List Nat) (s₁ s₂ : EvolverState)
    (hc : cfg₁ = cfg₂) (hsrc : src₁ = src₂) (ha : art₁ = art₂) (hst : s₁ = s₂) :
    generation cfg₁ src₁ art₁ s₁ = generation cfg₂ src₂ art₂ s₂ := by
  subst hc
  subst hsrc
  subst ha
  subst hst
  rfl

/-- Witness for C10: two runs at identical concrete inputs coincide. -/
theorem C10_generation_deterministic_witness :
    generation ⟨1, true, true, fun _ => 0⟩ (fun _ => 255) [7] ⟨⟨[], 0⟩, 1⟩ =
      generation ⟨1, true, true, fun _ => 0⟩ (fun _ => 255) [7] ⟨⟨[], 0⟩, 1⟩ :=
  C10_generation_deterministic ⟨1, true, true, fun _ => 0⟩ ⟨1, true, true, fun _ => 0⟩
    (fun _ => 255) (fun _ => 255) [7] [7] ⟨⟨[], 0⟩, 1⟩ ⟨⟨[], 0⟩, 1⟩ rfl rfl rfl rfl

end Evolution
